import Mathlib

/-!
Verification of the Kup bup kioslave (src/kioslave/bupslave.cpp) against its
natural-language specification.

The slave's own logic (repository location, get/read/seek/open/listDir
dispatch, UDS entry encoding, uid/gid caches) is embedded directly from the
source.  The bup virtual filesystem it calls into (class Repository, Node,
Directory, File of bupvfs.h, which is not part of the sources at hand) is
modelled from the spec as oracles: path resolution, file chunk reads and
seeks, and platform uid/gid lookups are parameters of the embedding.

Strings are modelled at the character level (QString operations on '/' are
reimplemented over List Char so that everything evaluates definitionally).
Emitted KIO signals are reified as an Event list in emission order.
-/

namespace Kup

/-! ### QString-level helpers -/

/-- Boolean list prefix test, `listPrefixB pre s` says `pre` begins `s`. -/
def listPrefixB : List Char → List Char → Bool
  | [], _ => true
  | _ :: _, [] => false
  | a :: as, b :: bs => a == b && listPrefixB as bs

/-- Model of `QString::startsWith`: does `s` start with `pre`? -/
def strStartsWith (s pre : String) : Bool :=
  listPrefixB pre.data s.data

/-- Model of `QString::remove(0, n)`: drop the first `n` characters. -/
def strDrop (s : String) (n : Nat) : String :=
  String.mk (s.data.drop n)

/-- Model of `QString::length`. -/
def strLen (s : String) : Nat :=
  s.data.length

/-- Split a character list at every slash (keeping empty pieces). -/
def splitSlashAux : List Char → List Char → List String
  | [], cur => [String.mk cur.reverse]
  | c :: rest, cur =>
    if c = '/' then String.mk cur.reverse :: splitSlashAux rest []
    else splitSlashAux rest (c :: cur)

/-- Model of `QString::split('/', QString::SkipEmptyParts)`. -/
def splitSkipEmpty (s : String) : List String :=
  (splitSlashAux s.data []).filter (fun t => t ≠ "")

/-- Model of `QStringList::join("/")`. -/
def joinSlash : List String → String
  | [] => ""
  | [s] => s
  | s :: rest => s ++ "/" ++ joinSlash rest

/-- Parse a non-empty all-digit character list as a decimal number. -/
def parseDigits : List Char → Nat → Option Nat
  | [], acc => some acc
  | c :: rest, acc =>
    if c.isDigit then parseDigits rest (acc * 10 + (c.toNat - 48))
    else none

/-- Model of `QString::toULongLong` on decimal input: `some` iff the string
is non-empty and all digits. -/
def parseNatQ (s : String) : Option Nat :=
  match s.data with
  | [] => none
  | l => parseDigits l 0

/-- Model of `QString::toInt` as used for the details metadata: parse result
or `0` when parsing fails. -/
def qToInt (s : String) : Int :=
  match s.data with
  | '-' :: rest =>
    match parseDigits rest 0 with
    | some n => -(n : Int)
    | none => 0
  | l =>
    match parseDigits l 0 with
    | some n => (n : Int)
    | none => 0

/-! ### KIO error codes used by the slave (distinct numeric tokens mirroring
the `KIO::Error` enumeration) -/

def ERR_DOES_NOT_EXIST : Nat := 11
def ERR_IS_DIRECTORY : Nat := 13
def ERR_IS_FILE : Nat := 14
def ERR_CANNOT_OPEN_FOR_READING : Nat := 17
def ERR_CANNOT_OPEN_FOR_WRITING : Nat := 18
def ERR_COULD_NOT_READ : Nat := 20
def ERR_COULD_NOT_SEEK : Nat := 22
def ERR_NO_CONTENT : Nat := 27
def ERR_SLAVE_DEFINED : Nat := 112

/-! ### The bup virtual filesystem, modelled from the spec -/

/-- Modelled from the spec: the chunked `File` objects of bupvfs (not under
src/).  `content` is the file's byte sequence, `chunkSize` the store's
internal buffering granularity (a read at a position before the end returns
at least one byte, hence the `max 1`), `seekFails` an oracle for positioned
seeks failing on a corrupt store, and `startPos` the file object's current
offset at resolution time (`File::mOffset`). -/
structure FileNode where
  content : List Nat
  chunkSize : Nat
  seekFails : Nat → Bool
  startPos : Nat

/-- Modelled from the spec: `File::seek` succeeds for offsets in `[0, size]`
unless the store oracle fails; a failed seek leaves the position unchanged. -/
def fseekOk (f : FileNode) (off : Nat) : Bool :=
  decide (off ≤ f.content.length) && !f.seekFails off

/-- POSIX-flavoured node attributes (`Node` members of bupvfs). -/
structure Meta where
  name : String
  mode : Nat
  mimeType : String
  uid : Nat
  gid : Nat
  atime : Nat
  mtime : Nat

/-- Modelled from the spec: the closed set of node kinds of the bup node
tree (Directory, File, Symlink).  A Symlink is neither a `File` nor a
`Directory`, so both `qobject_cast`s fail on it. -/
inductive Node where
  | dir (m : Meta) (children : List Node)
  | file (m : Meta) (f : FileNode)
  | symlink (m : Meta) (target : String)

/-- Attributes of a node (any kind). -/
def nodeMeta : Node → Meta
  | .dir m _ => m
  | .file m _ => m
  | .symlink m _ => m

/-- Model of `pNode->mSymlinkTarget`: empty on non-symlinks. -/
def symlinkTargetOf : Node → String
  | .symlink _ t => t
  | _ => ""

/-- Model of `qobject_cast<File *>` followed by `size()`: `0` unless the
node is a file. -/
def nodeSize : Node → Nat
  | .file _ f => f.content.length
  | _ => 0

/-- Is the node a directory (`qobject_cast<Directory *>` succeeds)? -/
def isDir : Node → Bool
  | .dir _ _ => true
  | _ => false

/-- Modelled from the spec: a bup `Repository` with its slash-terminated
root path (`objectName()`), validity flag, and resolve-by-components oracle
(`Repository::resolve` of bupvfs, not under src/). -/
structure Repository where
  rootPath : String
  valid : Bool
  resolve : List String → Option Node

/-- The environment the slave runs against: `QFile::exists` for the marker
tests, and the behaviour of `new Repository(nullptr, path)` (validity and
resolution), plus the platform `getpwuid`/`getgrgid` lookups. -/
structure Fs where
  fileExists : String → Bool
  repoValid : String → Bool
  repoResolve : String → List String → Option Node
  pwd : Nat → Option String
  grp : Nat → Option String

/-! ### Repository locator (BupSlave::checkCorrectRepository, lines 285-325) -/

/-- The archive marker test from lines 316-319: a first-class
`objects` + `refs` pair, or the same pair under `.git/`. -/
def hasMarkers (fs : Fs) (root : String) : Bool :=
  (fs.fileExists (root ++ "objects") && fs.fileExists (root ++ "refs")) ||
    (fs.fileExists (root ++ ".git/objects") && fs.fileExists (root ++ ".git/refs"))

/-- The component walk of lines 311-323.  `cur` is the incoming
`mRepository` (kept when the walk never assigns a new one), `acc` the
accumulated candidate root (slash-terminated).  Returns the final
`mRepository` value and, on success, the repository with the remaining
in-repository components. -/
def walkLoop (fs : Fs) (cur : Option Repository) (acc : String) :
    List String → Option Repository × Option (Repository × List String)
  | [] => (cur, none)
  | c :: rest =>
    let p := acc ++ c ++ "/"
    if hasMarkers fs p then
      let r : Repository := ⟨p, fs.repoValid p, fs.repoResolve p⟩
      (some r, if r.valid then some (r, rest) else none)
    else walkLoop fs cur p rest

/-- BupSlave::checkCorrectRepository on the normalized slash-terminated
path `lPath` (the URL normalization of lines 288-296 has already been
applied).  First component: the `mRepository` member after the call; second:
`some (repository, pathInRepository)` on success, `none` when the locate
failed. -/
def checkCorrectRepository (fs : Fs) (repo : Option Repository) (lPath : String) :
    Option Repository × Option (Repository × List String) :=
  match repo with
  | some r =>
    if r.valid then
      if strStartsWith lPath r.rootPath then
        (some r, some (r, splitSkipEmpty (strDrop lPath (strLen r.rootPath))))
      else walkLoop fs none "/" (splitSkipEmpty lPath)
    else walkLoop fs (some r) "/" (splitSkipEmpty lPath)
  | none => walkLoop fs none "/" (splitSkipEmpty lPath)

/-- Does the fast path of lines 298-303 accept the request? -/
def fastPathOk (repo : Option Repository) (lPath : String) : Bool :=
  match repo with
  | some r => r.valid && strStartsWith lPath r.rootPath
  | none => false

/-- Spec-side description of the candidate roots the walk inspects, from
the root outward. -/
def candidates (acc : String) : List String → List String
  | [] => []
  | c :: rest => (acc ++ c ++ "/") :: candidates (acc ++ c ++ "/") rest

/-- Spec-side description: the first candidate directory along the path
that satisfies the marker test. -/
def firstMarked (fs : Fs) (comps : List String) : Option String :=
  (candidates "/" comps).find? (fun p => hasMarkers fs p)

/-! ### Emitted signals and UDS entries -/

/-- One field of a `KIO::UDSEntry`, tagged by the UDS field constant the
slave inserts. -/
inductive UDSField where
  | name (s : String)
  | linkDest (s : String)
  | fileType (n : Nat)
  | access (n : Nat)
  | size (n : Nat)
  | mime (s : String)
  | atime (n : Nat)
  | mtime (n : Nat)
  | user (s : String)
  | group (s : String)
deriving DecidableEq

/-- The KIO signals the slave emits, reified in emission order. -/
inductive Event where
  | evError (code : Nat) (msg : String)
  | evMimeType (s : String)
  | evTotalSize (n : Nat)
  | evCanResume
  | evData (chunk : List Nat)
  | evProcessedSize (n : Nat)
  | evPosition (n : Nat)
  | evOpened
  | evListEntry (e : List UDSField)
  | evStatEntry (e : List UDSField)
  | evFinished
deriving DecidableEq

/-- The processed-size progression reported in an event stream. -/
def processedReports (evs : List Event) : List Nat :=
  evs.filterMap fun e => match e with | .evProcessedSize n => some n | _ => none

/-- The data chunks emitted in an event stream. -/
def dataChunks (evs : List Event) : List (List Nat) :=
  evs.filterMap fun e => match e with | .evData c => some c | _ => none

/-! ### Metadata caches (BupSlave::getUserName / getGroupName, lines 327-351) -/

/-- BupSlave::getUserName: the cached name when present; otherwise query
`getpwuid` and cache the name on success, or return the decimal id without
caching on failure.  Returns the name and the updated `mUsercache`. -/
def getUserName (pwd : Nat → Option String) (cache : List (Nat × String)) (uid : Nat) :
    String × List (Nat × String) :=
  match cache.lookup uid with
  | some n => (n, cache)
  | none =>
    match pwd uid with
    | some n => (n, (uid, n) :: cache)
    | none => (toString uid, cache)

/-- BupSlave::getGroupName, same shape over `getgrgid` and `mGroupcache`. -/
def getGroupName (grp : Nat → Option String) (cache : List (Nat × String)) (gid : Nat) :
    String × List (Nat × String) :=
  match cache.lookup gid with
  | some n => (n, cache)
  | none =>
    match grp gid with
    | some n => (n, (gid, n) :: cache)
    | none => (toString gid, cache)

/-! ### Entry encoder (BupSlave::createUDSEntry, lines 353-380) -/

/-- BupSlave::createUDSEntry.  `resolveLink` is the parent-relative symlink
resolution `pNode->parent()->resolve(target, true)` (bupvfs, modelled from
the spec as an oracle).  Returns the encoded fields in insertion order and
the updated user and group caches. -/
def createUDSEntry (fs : Fs) (resolveLink : String → Option Node)
    (uc gc : List (Nat × String)) (pNode : Node) (pDetails : Int) :
    List UDSField × List (Nat × String) × List (Nat × String) :=
  let m0 := nodeMeta pNode
  let lp : List UDSField × Node :=
    if symlinkTargetOf pNode ≠ "" then
      ([.linkDest (symlinkTargetOf pNode)],
        if pDetails > 1 then
          match resolveLink (symlinkTargetOf pNode) with
          | some t => t
          | none => pNode
        else pNode)
    else ([], pNode)
  let m2 := nodeMeta lp.2
  let base := UDSField.name m0.name :: lp.1 ++
    [UDSField.fileType (m2.mode &&& 0o170000), UDSField.access (m2.mode &&& 0o7777)]
  if pDetails > 0 then
    let u := getUserName fs.pwd uc m2.uid
    let g := getGroupName fs.grp gc m2.gid
    (base ++ [UDSField.size (nodeSize lp.2), UDSField.mime m2.mimeType,
      UDSField.atime m2.atime, UDSField.mtime m2.mtime,
      UDSField.user u.1, UDSField.group g.1], u.2, g.2)
  else (base, uc, gc)

/-! ### Session state and the slave operations -/

/-- The open-file slot: the resolved `File` the last successful `open`
installed, its complete path, and the stream position. -/
structure OpenFileHandle where
  repoRoot : String
  path : String
  file : FileNode
  pos : Nat

/-- The mutable members of BupSlave: `mRepository`, `mOpenFile`,
`mUsercache`, `mGroupcache`. -/
structure SlaveState where
  repository : Option Repository
  openFile : Option OpenFileHandle
  usercache : List (Nat × String)
  groupcache : List (Nat × String)

/-- The unbounded read loop of BupSlave::get (lines 130-140): read a chunk,
emit it followed by the cumulative processed size, until the store reports
`ERR_NO_CONTENT`, then emit the empty completion chunk, the final processed
size, and `finished`. -/
def getLoop (f : FileNode) (pos processed : Nat) : List Event :=
  if f.content.length ≤ pos then
    [.evData [], .evProcessedSize processed, .evFinished]
  else
    let c := (f.content.drop pos).take (max 1 f.chunkSize)
    .evData c :: .evProcessedSize (processed + c.length) ::
      getLoop f (pos + c.length) (processed + c.length)
termination_by f.content.length - pos
decreasing_by
  simp only [List.length_take, List.length_drop]
  omega

/-- BupSlave::get (lines 89-144) on the normalized path, with the `resume`
metadata value (empty string when absent). -/
def getOp (fs : Fs) (st : SlaveState) (lPath : String) (resumeMeta : String) :
    SlaveState × List Event :=
  let cr := checkCorrectRepository fs st.repository lPath
  let st1 := { st with repository := cr.1 }
  match cr.2 with
  | none => (st1, [.evError ERR_SLAVE_DEFINED lPath])
  | some (r, comps) =>
    match r.resolve comps with
    | none => (st1, [.evError ERR_DOES_NOT_EXIST (joinSlash comps)])
    | some (.dir _ _) => (st1, [.evError ERR_IS_DIRECTORY (joinSlash comps)])
    | some (.symlink _ _) => (st1, [.evError ERR_IS_DIRECTORY (joinSlash comps)])
    | some (.file m f) =>
      let pos0 := if fseekOk f 0 then 0 else f.startPos
      let rs : Nat × Nat × List Event :=
        if resumeMeta ≠ "" then
          match parseNatQ resumeMeta with
          | some off =>
            if off < f.content.length then
              if fseekOk f off then (off, off, [.evCanResume])
              else (pos0, 0, [])
            else (pos0, 0, [])
          | none => (pos0, 0, [])
        else (pos0, 0, [])
      (st1, .evMimeType m.mimeType :: .evTotalSize f.content.length ::
        rs.2.2 ++ getLoop f rs.1 rs.2.1)

/-- The bounded read loop of BupSlave::read (lines 220-224): chunks of at
most the remaining budget, stopping at budget zero (return value `0`) or at
the store's `ERR_NO_CONTENT`.  Returns the chunks and the final `lRetVal`. -/
def readLoop (f : FileNode) (pos budget : Nat) : List (List Nat) × Nat :=
  if budget = 0 then ([], 0)
  else if f.content.length ≤ pos then ([], ERR_NO_CONTENT)
  else
    let c := (f.content.drop pos).take (min (max 1 f.chunkSize) budget)
    let r := readLoop f (pos + c.length) (budget - c.length)
    (c :: r.1, r.2)
termination_by budget
decreasing_by
  simp only [List.length_take, List.length_drop]
  omega

/-- BupSlave::read (lines 214-231). -/
def readOp (st : SlaveState) (pSize : Nat) : SlaveState × List Event :=
  match st.openFile with
  | none => (st, [.evError ERR_COULD_NOT_READ ""])
  | some h =>
    let r := readLoop h.file h.pos pSize
    let consumed := (r.1.map List.length).sum
    let st1 := { st with openFile := some { h with pos := h.pos + consumed } }
    if r.2 = 0 then
      (st1, (r.1.map Event.evData) ++ [.evData [], .evFinished])
    else
      (st1, (r.1.map Event.evData) ++ [.evError r.2 h.path])

/-- BupSlave::seek (lines 233-244). -/
def seekOp (st : SlaveState) (pOffset : Nat) : SlaveState × List Event :=
  match st.openFile with
  | none => (st, [.evError ERR_COULD_NOT_SEEK ""])
  | some h =>
    if fseekOk h.file pOffset then
      ({ st with openFile := some { h with pos := pOffset } }, [.evPosition pOffset])
    else (st, [.evError ERR_COULD_NOT_SEEK h.path])

/-- BupSlave::open (lines 178-212).  `writeMode` is
`pMode & QIODevice::WriteOnly`, `displayUrl` the request URL's display
string used in error messages. -/
def openOp (fs : Fs) (st : SlaveState) (lPath displayUrl : String) (writeMode : Bool) :
    SlaveState × List Event :=
  if writeMode then (st, [.evError ERR_CANNOT_OPEN_FOR_WRITING displayUrl])
  else
    let cr := checkCorrectRepository fs st.repository lPath
    let st1 := { st with repository := cr.1 }
    match cr.2 with
    | none => (st1, [.evError ERR_SLAVE_DEFINED displayUrl])
    | some (r, comps) =>
      match r.resolve comps with
      | none => (st1, [.evError ERR_DOES_NOT_EXIST (joinSlash comps)])
      | some (.dir _ _) => (st1, [.evError ERR_IS_DIRECTORY (joinSlash comps)])
      | some (.symlink _ _) => (st1, [.evError ERR_IS_DIRECTORY (joinSlash comps)])
      | some (.file m f) =>
        if fseekOk f 0 then
          ({ st1 with openFile := some ⟨r.rootPath, joinSlash comps, f, 0⟩ },
            [.evMimeType m.mimeType, .evTotalSize f.content.length,
              .evPosition 0, .evOpened])
        else (st1, [.evError ERR_CANNOT_OPEN_FOR_READING displayUrl])

/-- The listing loop of BupSlave::listDir (lines 169-174): encode every
child at the given detail level, threading the metadata caches. -/
def encodeChildren (fs : Fs) (rl : String → Option Node) :
    List (Nat × String) → List (Nat × String) → List Node → Int →
    List (List UDSField) × List (Nat × String) × List (Nat × String)
  | uc, gc, [], _ => ([], uc, gc)
  | uc, gc, n :: rest, d =>
    let e := createUDSEntry fs rl uc gc n d
    let r := encodeChildren fs rl e.2.1 e.2.2 rest d
    (e.1 :: r.1, r.2)

/-- BupSlave::listDir (lines 146-176).  `rl` is the parent-relative symlink
resolution scope of the listed directory, `detailsMeta` the `details`
metadata (absent means detail level 2). -/
def listDirOp (fs : Fs) (st : SlaveState) (lPath : String)
    (rl : String → Option Node) (detailsMeta : Option String) :
    SlaveState × List Event :=
  let cr := checkCorrectRepository fs st.repository lPath
  let st1 := { st with repository := cr.1 }
  match cr.2 with
  | none => (st1, [.evError ERR_SLAVE_DEFINED lPath])
  | some (r, comps) =>
    match r.resolve comps with
    | none => (st1, [.evError ERR_DOES_NOT_EXIST (joinSlash comps)])
    | some (.dir _ children) =>
      let d := match detailsMeta with | none => 2 | some s => qToInt s
      let res := encodeChildren fs rl st1.usercache st1.groupcache children d
      ({ st1 with usercache := res.2.1, groupcache := res.2.2 },
        (res.1.map Event.evListEntry) ++ [.evFinished])
    | some _ => (st1, [.evError ERR_IS_FILE (joinSlash comps)])

/-! ### Concrete environments used by witnesses and counterexamples -/

/-- A fixed node attribute record for concrete scenarios. -/
def metaW : Meta := ⟨"f", 0o100644, "text/plain", 5, 7, 100, 200⟩

/-- A two-byte file served in single-byte chunks, with no seek failures. -/
def fileA : FileNode := ⟨[10, 20], 1, fun _ => false, 0⟩

/-- An empty file. -/
def fileB : FileNode := ⟨[], 1, fun _ => false, 0⟩

/-- A world with two archives, `/a/` (containing file `f`) and `/b/`
(containing file `x`). -/
def fsC4 : Fs :=
  ⟨fun s => decide (s = "/a/objects" ∨ s = "/a/refs" ∨ s = "/b/objects" ∨ s = "/b/refs"),
   fun _ => true,
   fun root comps =>
     if root = "/a/" ∧ comps = ["f"] then some (.file metaW fileA)
     else if root = "/b/" ∧ comps = ["x"] then some (.file metaW fileB)
     else none,
   fun _ => none, fun _ => none⟩

/-! ### Claim theorems -/

/-- C9: a successful uid/gid name lookup is cached and later lookups of the
same id return the cached name without re-querying the platform (the result
no longer depends on the platform oracle); a failed lookup returns the
decimal string of the id and leaves the cache unchanged, so later lookups
re-query. -/
theorem uid_gid_cache_spec (pwd grp : Nat → Option String)
    (uc gc : List (Nat × String)) (uid gid : Nat) :
    ((∀ n, uc.lookup uid = some n → ∀ pwd2, getUserName pwd2 uc uid = (n, uc))
      ∧ (∀ n, uc.lookup uid = none → pwd uid = some n →
          getUserName pwd uc uid = (n, (uid, n) :: uc) ∧
            ((uid, n) :: uc).lookup uid = some n)
      ∧ (uc.lookup uid = none → pwd uid = none →
          getUserName pwd uc uid = (toString uid, uc)))
    ∧ ((∀ n, gc.lookup gid = some n → ∀ grp2, getGroupName grp2 gc gid = (n, gc))
      ∧ (∀ n, gc.lookup gid = none → grp gid = some n →
          getGroupName grp gc gid = (n, (gid, n) :: gc) ∧
            ((gid, n) :: gc).lookup gid = some n)
      ∧ (gc.lookup gid = none → grp gid = none →
          getGroupName grp gc gid = (toString gid, gc))) := by
  refine ⟨⟨?_, ?_, ?_⟩, ?_, ?_, ?_⟩
  · intro n h pwd2; simp [getUserName, h]
  · intro n h hp; simp [getUserName, h, hp, List.lookup]
  · intro h hp; simp [getUserName, h, hp]
  · intro n h grp2; simp [getGroupName, h]
  · intro n h hp; simp [getGroupName, h, hp, List.lookup]
  · intro h hp; simp [getGroupName, h, hp]

/-- Witness for C9 at concrete inputs: uid 5 misses an empty cache, the
platform resolves it, and the result is cached; gid 7 fails to resolve and
is rendered as its decimal string with the cache left empty. -/
theorem uid_gid_cache_spec_witness :
    (([] : List (Nat × String)).lookup 5 = none
      ∧ (fun u => if u = 5 then some "root" else none) 5 = some "root"
      ∧ getUserName (fun u => if u = 5 then some "root" else none) [] 5 = ("root", [(5, "root")])
      ∧ ([(5, "root")] : List (Nat × String)).lookup 5 = some "root")
    ∧ (([] : List (Nat × String)).lookup 7 = none
      ∧ (fun _ : Nat => (none : Option String)) 7 = none
      ∧ getGroupName (fun _ => none) [] 7 = ("7", [])) := by
  refine ⟨⟨rfl, rfl, ?_⟩, rfl, rfl, ?_⟩
  · have h := (uid_gid_cache_spec (fun u => if u = 5 then some "root" else none)
      (fun _ => none) [] [] 5 7).1.2.1 "root" rfl rfl
    exact ⟨h.1, h.2⟩
  · exact (uid_gid_cache_spec (fun u => if u = 5 then some "root" else none)
      (fun _ => none) [] [] 5 7).2.2.2 rfl rfl

/-- C10: an open request that fails at any of its checks (write mode,
repository not found, unresolved path, non-file node, failed initial seek)
leaves the open-file slot unchanged; the slot is replaced exactly when all
checks succeed and `opened` is emitted. -/
theorem openOp_slot_preserved (fs : Fs) (st : SlaveState) (lPath displayUrl : String)
    (writeMode : Bool) :
    (Event.evOpened ∉ (openOp fs st lPath displayUrl writeMode).2 →
      ((openOp fs st lPath displayUrl writeMode).1).openFile = st.openFile)
    ∧ (Event.evOpened ∈ (openOp fs st lPath displayUrl writeMode).2 →
      ∃ r comps m f, (checkCorrectRepository fs st.repository lPath).2 = some (r, comps)
        ∧ r.resolve comps = some (.file m f) ∧ fseekOk f 0 = true
        ∧ ((openOp fs st lPath displayUrl writeMode).1).openFile =
            some ⟨r.rootPath, joinSlash comps, f, 0⟩) := by
  cases writeMode with
  | true =>
    constructor
    · intro _; simp [openOp]
    · intro hmem; simp [openOp] at hmem
  | false =>
    rcases hcr : (checkCorrectRepository fs st.repository lPath).2 with _ | ⟨r, comps⟩
    · constructor
      · intro _; simp [openOp, hcr]
      · intro hmem; simp [openOp, hcr] at hmem
    · rcases hres : r.resolve comps with _ | n
      · constructor
        · intro _; simp [openOp, hcr, hres]
        · intro hmem; simp [openOp, hcr, hres] at hmem
      · cases n with
        | dir m ch =>
          constructor
          · intro _; simp [openOp, hcr, hres]
          · intro hmem; simp [openOp, hcr, hres] at hmem
        | symlink m t =>
          constructor
          · intro _; simp [openOp, hcr, hres]
          · intro hmem; simp [openOp, hcr, hres] at hmem
        | file m f =>
          by_cases hs : fseekOk f 0
          · constructor
            · intro hmem; exact absurd (by simp [openOp, hcr, hres, hs]) hmem
            · intro _
              exact ⟨r, comps, m, f, hcr ▸ rfl, hres, hs, by simp [openOp, hcr, hres, hs]⟩
          · constructor
            · intro _; simp [openOp, hcr, hres, hs]
            · intro hmem; simp [openOp, hcr, hres, hs] at hmem

/-- Witness for C10: a write-mode open fails and leaves the (empty)
open-file slot untouched. -/
theorem openOp_slot_preserved_witness :
    Event.evOpened ∉ (openOp fsC4 ⟨none, none, [], []⟩ "/a/f/" "/a/f" true).2
    ∧ ((openOp fsC4 ⟨none, none, [], []⟩ "/a/f/" "/a/f" true).1).openFile = none := by
  refine ⟨by simp [openOp], ?_⟩
  exact (openOp_slot_preserved fsC4 ⟨none, none, [], []⟩ "/a/f/" "/a/f" true).1
    (by simp [openOp])

/-- C4 fails on the code: after a successful open of `/a/f`, a get
addressed to the other archive `/b/x` replaces the Repository (the C++
code deletes it), yet the open-file slot still holds the old archive's
file handle and a subsequent read uses it (in C++, a use-after-free).
The trace below exhibits this: the repository root becomes `/b/` while
`read` still serves the bytes of `/a/f` through the stale handle. -/
theorem staleHandle_after_repository_replacement :
    ((openOp fsC4 ⟨none, none, [], []⟩ "/a/f/" "/a/f" false).1.openFile
        = some ⟨"/a/", "f", fileA, 0⟩)
    ∧ ((getOp fsC4 (openOp fsC4 ⟨none, none, [], []⟩ "/a/f/" "/a/f" false).1
          "/b/x/" "").1.repository.map Repository.rootPath = some "/b/")
    ∧ ((getOp fsC4 (openOp fsC4 ⟨none, none, [], []⟩ "/a/f/" "/a/f" false).1
          "/b/x/" "").1.openFile = some ⟨"/a/", "f", fileA, 0⟩)
    ∧ ((readOp (getOp fsC4 (openOp fsC4 ⟨none, none, [], []⟩ "/a/f/" "/a/f" false).1
          "/b/x/" "").1 2).2
        = [.evData [10], .evData [20], .evData [], .evFinished]) := by
  have h1 : (openOp fsC4 ⟨none, none, [], []⟩ "/a/f/" "/a/f" false).1
      = ⟨some ⟨"/a/", true, fsC4.repoResolve "/a/"⟩, some ⟨"/a/", "f", fileA, 0⟩, [], []⟩ := by
    rfl
  have h2 : (getOp fsC4 (openOp fsC4 ⟨none, none, [], []⟩ "/a/f/" "/a/f" false).1
      "/b/x/" "").1
      = ⟨some ⟨"/b/", true, fsC4.repoResolve "/b/"⟩, some ⟨"/a/", "f", fileA, 0⟩, [], []⟩ := by
    rw [h1]; rfl
  refine ⟨by rw [h1], by rw [h2]; rfl, by rw [h2], ?_⟩
  rw [h2]
  simp [readOp, readLoop, fileA, ERR_NO_CONTENT]

/-! ### Locator lemmas -/

/-- The walk of lines 312-323 finds exactly the first candidate directory
satisfying the marker test, and succeeds exactly when that candidate opens
as a valid repository. -/
theorem walkLoop_firstMarked (fs : Fs) (comps : List String) :
    ∀ (cur : Option Repository) (acc : String),
    (match (candidates acc comps).find? (fun p => hasMarkers fs p) with
     | none => (walkLoop fs cur acc comps).2 = none
     | some p =>
       (fs.repoValid p = true →
         ∃ rest, (walkLoop fs cur acc comps).2 = some (⟨p, true, fs.repoResolve p⟩, rest))
       ∧ (fs.repoValid p = false → (walkLoop fs cur acc comps).2 = none)) := by
  induction comps with
  | nil => intro cur acc; simp [candidates, walkLoop]
  | cons c rest ih =>
    intro cur acc
    by_cases hm : hasMarkers fs (acc ++ c ++ "/")
    · simp only [candidates, List.find?_cons, hm]
      constructor
      · intro hv
        exact ⟨rest, by simp [walkLoop, hm, hv]⟩
      · intro hv
        simp [walkLoop, hm, hv]
    · have hm' : hasMarkers fs (acc ++ c ++ "/") = false := by simpa using hm
      have h := ih cur (acc ++ c ++ "/")
      simp only [candidates, List.find?_cons, hm']
      simpa [walkLoop, hm'] using h

/-- Any repository the walk installs has a slash-terminated root path. -/
theorem walkLoop_slash (fs : Fs) (comps : List String) :
    ∀ (cur : Option Repository) (acc : String),
    (∀ rc, cur = some rc → ∃ t, rc.rootPath = t ++ "/") →
    ∀ r, (walkLoop fs cur acc comps).1 = some r → ∃ t, r.rootPath = t ++ "/" := by
  induction comps with
  | nil =>
    intro cur acc hc r h
    simp only [walkLoop] at h
    exact hc r h
  | cons c rest ih =>
    intro cur acc hc r h
    by_cases hm : hasMarkers fs (acc ++ c ++ "/")
    · simp only [walkLoop, hm, if_true] at h
      simp only [Option.some.injEq] at h
      exact ⟨acc ++ c, by rw [← h]⟩
    · exact ih cur (acc ++ c ++ "/") hc r (by simpa [walkLoop, hm] using h)

/-- Boolean prefix test agrees with list-prefix decomposition. -/
theorem listPrefixB_iff (pre : List Char) :
    ∀ s, listPrefixB pre s = true ↔ ∃ t, s = pre ++ t := by
  induction pre with
  | nil => intro s; simp [listPrefixB]
  | cons a as ih =>
    intro s
    cases s with
    | nil => simp [listPrefixB]
    | cons b bs =>
      simp only [listPrefixB, Bool.and_eq_true, beq_iff_eq, ih bs, List.cons_append,
        List.cons.injEq]
      constructor
      · rintro ⟨rfl, t, rfl⟩
        exact ⟨t, rfl, rfl⟩
      · rintro ⟨t, rfl, rfl⟩
        exact ⟨rfl, t, rfl⟩

/-- C1: for a request outside the currently open repository, the locator
walks the path components from the root outward; the first marked candidate
(`objects`+`refs`, possibly under `.git/`) becomes the new repository root,
the locate succeeding exactly when that candidate opens as valid; with no
marked candidate, or an invalid one, the locate fails. -/
theorem checkCorrectRepository_locates_first_marked (fs : Fs) (repo : Option Repository)
    (lPath : String) (hfp : fastPathOk repo lPath = false) :
    (match firstMarked fs (splitSkipEmpty lPath) with
     | none => (checkCorrectRepository fs repo lPath).2 = none
     | some p =>
       (fs.repoValid p = true →
         ∃ rest, (checkCorrectRepository fs repo lPath).2
           = some (⟨p, true, fs.repoResolve p⟩, rest))
       ∧ (fs.repoValid p = false → (checkCorrectRepository fs repo lPath).2 = none)) := by
  have hw := walkLoop_firstMarked fs (splitSkipEmpty lPath)
  unfold firstMarked
  cases repo with
  | none => simpa [checkCorrectRepository] using hw none "/"
  | some r =>
    by_cases hv : r.valid
    · have hs : strStartsWith lPath r.rootPath = false := by
        simp [fastPathOk, hv] at hfp
        exact hfp
      simpa [checkCorrectRepository, hv, hs] using hw none "/"
    · simp only [Bool.not_eq_true] at hv
      simpa [checkCorrectRepository, hv] using hw (some r) "/"

/-- Witness for C1: with no repository open and markers present at `/a/`,
locating `/a/x/` installs the repository rooted at `/a/`. -/
theorem checkCorrectRepository_locates_first_marked_witness :
    fastPathOk none "/a/x/" = false
    ∧ (match firstMarked fsC4 (splitSkipEmpty "/a/x/") with
       | none => (checkCorrectRepository fsC4 none "/a/x/").2 = none
       | some p =>
         (fsC4.repoValid p = true →
           ∃ rest, (checkCorrectRepository fsC4 none "/a/x/").2
             = some (⟨p, true, fsC4.repoResolve p⟩, rest))
         ∧ (fsC4.repoValid p = false → (checkCorrectRepository fsC4 none "/a/x/").2 = none)) :=
  ⟨rfl, checkCorrectRepository_locates_first_marked fsC4 none "/a/x/" rfl⟩

/-- C7: every repository the locator installs has a slash-terminated root
path; the fast path accepts exactly the normalized paths extending that
root as a string prefix, and on acceptance strips exactly the root prefix
and splits the remainder on slashes, dropping empty segments. -/
theorem repoRoot_slash_prefix_inv (fs : Fs) (repo : Option Repository) (lPath : String)
    (hinv : ∀ r, repo = some r → ∃ t, r.rootPath = t ++ "/") :
    (∀ r', (checkCorrectRepository fs repo lPath).1 = some r' → ∃ t, r'.rootPath = t ++ "/")
    ∧ (∀ r, repo = some r → r.valid = true → strStartsWith lPath r.rootPath = true →
        ∃ t, lPath.data = r.rootPath.data ++ t
          ∧ strDrop lPath (strLen r.rootPath) = String.mk t
          ∧ (checkCorrectRepository fs repo lPath).2
              = some (r, splitSkipEmpty (String.mk t)))
    ∧ (∀ r, repo = some r → r.valid = true → strStartsWith lPath r.rootPath = false →
        (checkCorrectRepository fs repo lPath).2
          = (walkLoop fs none "/" (splitSkipEmpty lPath)).2) := by
  refine ⟨?_, ?_, ?_⟩
  · intro r' h
    cases repo with
    | none => exact walkLoop_slash fs (splitSkipEmpty lPath) none "/" (by simp) r' h
    | some r =>
      by_cases hv : r.valid
      · by_cases hs : strStartsWith lPath r.rootPath
        · simp only [checkCorrectRepository, hv, hs, if_true] at h
          simp only [Option.some.injEq] at h
          exact h ▸ hinv r rfl
        · simp only [Bool.not_eq_true] at hs
          simp only [checkCorrectRepository, hv, hs, if_true, Bool.false_eq_true,
            if_false] at h
          exact walkLoop_slash fs (splitSkipEmpty lPath) none "/" (by simp) r' h
      · simp only [Bool.not_eq_true] at hv
        simp only [checkCorrectRepository, hv, Bool.false_eq_true, if_false] at h
        exact walkLoop_slash fs (splitSkipEmpty lPath) (some r) "/" hinv r' h
  · rintro r rfl hv hs
    obtain ⟨t, ht⟩ := (listPrefixB_iff r.rootPath.data lPath.data).1 hs
    refine ⟨t, ht, ?_, ?_⟩
    · simp [strDrop, strLen, ht, List.drop_left]
    · have hd : strDrop lPath (strLen r.rootPath) = String.mk t := by
        simp [strDrop, strLen, ht, List.drop_left]
      simp [checkCorrectRepository, hv, hs, hd]
  · rintro r rfl hv hs
    simp [checkCorrectRepository, hv, hs]

/-- The repository rooted at `/a/` of the two-archive world. -/
def repoA : Repository := ⟨"/a/", true, fsC4.repoResolve "/a/"⟩

/-- Witness for C7: with the `/a/` repository open, the fast path accepts
`/a/x//y/`, strips the root and returns components `["x", "y"]`. -/
theorem repoRoot_slash_prefix_inv_witness :
    (∃ t, repoA.rootPath = t ++ "/")
    ∧ repoA.valid = true
    ∧ strStartsWith "/a/x//y/" repoA.rootPath = true
    ∧ (∃ t, "/a/x//y/".data = repoA.rootPath.data ++ t
        ∧ strDrop "/a/x//y/" (strLen repoA.rootPath) = String.mk t
        ∧ (checkCorrectRepository fsC4 (some repoA) "/a/x//y/").2
            = some (repoA, splitSkipEmpty (String.mk t))) := by
  refine ⟨⟨"/a", rfl⟩, rfl, rfl, ?_⟩
  exact (repoRoot_slash_prefix_inv fsC4 (some repoA) "/a/x//y/"
    (by rintro r ⟨rfl⟩; exact ⟨"/a", rfl⟩)).2.1 repoA rfl rfl rfl

/-! ### Stream reader lemmas (the get loop) -/

/-- A take of the prefix followed by the matching drop restores the list. -/
theorem take_append_drop_len {α : Type} (l : List α) (n : Nat) :
    l.take n ++ l.drop (l.take n).length = l := by
  rw [List.length_take]
  rcases Nat.le_total n l.length with h | h
  · rw [Nat.min_eq_left h, List.take_append_drop]
  · rw [Nat.min_eq_right h, List.drop_length, List.take_of_length_le h, List.append_nil]

/-- The chunks the get loop emits concatenate to the file contents from
the start position (the final empty completion chunk contributes nothing). -/
theorem getLoop_flatten (f : FileNode) (pos processed : Nat) :
    (dataChunks (getLoop f pos processed)).flatten = f.content.drop pos := by
  rw [getLoop]
  by_cases h : f.content.length ≤ pos
  · simp [h, dataChunks, List.drop_eq_nil_of_le h]
  · have ih := getLoop_flatten f (pos + ((f.content.drop pos).take (max 1 f.chunkSize)).length)
      (processed + ((f.content.drop pos).take (max 1 f.chunkSize)).length)
    simp only [h, if_false, dataChunks, List.filterMap_cons] at ih ⊢
    rw [List.flatten_cons, ih, ← List.drop_drop]
    exact take_append_drop_len (f.content.drop pos) (max 1 f.chunkSize)
termination_by f.content.length - pos
decreasing_by
  simp only [List.length_take, List.length_drop]
  omega

/-- The get loop emits no error signal. -/
theorem getLoop_no_error (f : FileNode) (pos processed c : Nat) (s : String) :
    Event.evError c s ∉ getLoop f pos processed := by
  rw [getLoop]
  by_cases h : f.content.length ≤ pos
  · simp [h]
  · have ih := getLoop_no_error f (pos + ((f.content.drop pos).take (max 1 f.chunkSize)).length)
      (processed + ((f.content.drop pos).take (max 1 f.chunkSize)).length) c s
    simp only [h, if_false, List.mem_cons]
    rintro (h1 | h1 | h1) <;> first
      | exact Event.noConfusion h1
      | exact ih h1
termination_by f.content.length - pos
decreasing_by
  simp only [List.length_take, List.length_drop]
  omega

/-- The get loop never emits the resume-accepted signal. -/
theorem getLoop_no_canResume (f : FileNode) (pos processed : Nat) :
    Event.evCanResume ∉ getLoop f pos processed := by
  rw [getLoop]
  by_cases h : f.content.length ≤ pos
  · simp [h]
  · have ih := getLoop_no_canResume f
      (pos + ((f.content.drop pos).take (max 1 f.chunkSize)).length)
      (processed + ((f.content.drop pos).take (max 1 f.chunkSize)).length)
    simp only [h, if_false, List.mem_cons]
    rintro (h1 | h1 | h1) <;> first
      | exact Event.noConfusion h1
      | exact ih h1
termination_by f.content.length - pos
decreasing_by
  simp only [List.length_take, List.length_drop]
  omega

/-- Last element of a cons with a non-empty tail. -/
theorem getLast?_cons_of_tail {α : Type} (a : α) {l : List α} (h : l ≠ []) :
    (a :: l).getLast? = l.getLast? := by
  obtain ⟨y, ys, rfl⟩ := List.exists_cons_of_ne_nil h
  exact List.getLast?_cons_cons

/-- The get loop always emits something. -/
theorem getLoop_ne_nil (f : FileNode) (pos processed : Nat) :
    getLoop f pos processed ≠ [] := by
  rw [getLoop]
  by_cases h : f.content.length ≤ pos <;> simp [h]

/-- The get loop ends with `finished`. -/
theorem getLoop_last (f : FileNode) (pos processed : Nat) :
    (getLoop f pos processed).getLast? = some Event.evFinished := by
  rw [getLoop]
  by_cases h : f.content.length ≤ pos
  · simp [h]
  · have ih := getLoop_last f (pos + ((f.content.drop pos).take (max 1 f.chunkSize)).length)
      (processed + ((f.content.drop pos).take (max 1 f.chunkSize)).length)
    simp only [h, if_false]
    rw [List.getLast?_cons_cons, getLast?_cons_of_tail _ (getLoop_ne_nil f _ _)]
    exact ih
termination_by f.content.length - pos
decreasing_by
  simp only [List.length_take, List.length_drop]
  omega

/-- The processed-size progression of the get loop from position `pos` with
baseline `base`: some strictly increasing reports, all above the baseline
(one per non-empty chunk, the last one equal to the total), followed by the
repetition after the final empty chunk. -/
theorem getLoop_processed (f : FileNode) (pos base : Nat) (hpos : pos ≤ f.content.length) :
    ∃ ps, processedReports (getLoop f pos base)
        = ps ++ [base + (f.content.length - pos)]
      ∧ List.Chain' (· < ·) ps
      ∧ (∀ x ∈ ps, base < x)
      ∧ (ps = [] ↔ f.content.length ≤ pos)
      ∧ (ps ≠ [] → ps.getLast? = some (base + (f.content.length - pos))) := by
  rw [getLoop]
  by_cases h : f.content.length ≤ pos
  · refine ⟨[], ?_, ?_, ?_, ?_, ?_⟩ <;>
      simp [h, processedReports, Nat.le_antisymm h hpos]
  · have hk : 1 ≤ ((f.content.drop pos).take (max 1 f.chunkSize)).length ∧
        ((f.content.drop pos).take (max 1 f.chunkSize)).length ≤ f.content.length - pos := by
      simp only [List.length_take, List.length_drop]
      omega
    obtain ⟨ps', hrep, hch, hgt, hemp, hlast⟩ := getLoop_processed f
      (pos + ((f.content.drop pos).take (max 1 f.chunkSize)).length)
      (base + ((f.content.drop pos).take (max 1 f.chunkSize)).length)
      (by omega)
    refine ⟨(base + ((f.content.drop pos).take (max 1 f.chunkSize)).length) :: ps',
      ?_, ?_, ?_, ?_, ?_⟩
    · simp only [h, if_false, processedReports, List.filterMap_cons] at hrep ⊢
      rw [hrep]
      have : base + ((f.content.drop pos).take (max 1 f.chunkSize)).length +
          (f.content.length - (pos + ((f.content.drop pos).take (max 1 f.chunkSize)).length))
          = base + (f.content.length - pos) := by omega
      rw [this]
      rfl
    · rw [List.chain'_cons']
      refine ⟨?_, hch⟩
      intro y hy
      exact hgt y (List.mem_of_mem_head? hy)
    · intro x hx
      rcases List.mem_cons.1 hx with rfl | hx
      · omega
      · have := hgt x hx
        omega
    · constructor
      · intro hc; exact absurd hc (List.cons_ne_nil _ _)
      · intro hc; exact absurd hc h
    · intro _
      rcases eq_or_ne ps' [] with rfl | hne
      · have h2 := hemp.1 rfl
        rw [List.getLast?_singleton]
        have h3 : ((f.content.drop pos).take (max 1 f.chunkSize)).length
            = f.content.length - pos := by omega
        rw [h3]
      · rw [getLast?_cons_of_tail _ hne, hlast hne]
        exact congrArg some (by omega)

termination_by f.content.length - pos
decreasing_by
  simp only [List.length_take, List.length_drop]
  omega

/-! ### get: resume protocol and emission order -/

/-- C3: a full-file get carrying a resume offset accepts the resume
(emitting `canResume` and taking the offset as the processed-size baseline)
exactly when the offset parses, is strictly below the file size, and the
seek to it succeeds; an offset at or beyond the size never reaches the
seek and the request proceeds as a plain full read; a failed seek likewise
degrades to the full read from position 0 with no resume-accepted signal
instead of failing.  (The initial rewind `seek(0)` is assumed to succeed.) -/
theorem get_resume_spec (fs : Fs) (st : SlaveState) (lPath resumeMeta : String)
    (r : Repository) (comps : List String) (m : Meta) (f : FileNode)
    (hcr : (checkCorrectRepository fs st.repository lPath).2 = some (r, comps))
    (hres : r.resolve comps = some (.file m f))
    (h0 : f.seekFails 0 = false) (hm : resumeMeta ≠ "") :
    (∀ off, parseNatQ resumeMeta = some off → off < f.content.length →
      f.seekFails off = false →
      (getOp fs st lPath resumeMeta).2 = .evMimeType m.mimeType ::
        .evTotalSize f.content.length :: .evCanResume :: getLoop f off off)
    ∧ (∀ off, parseNatQ resumeMeta = some off → f.content.length ≤ off →
      (getOp fs st lPath resumeMeta).2 = (getOp fs st lPath "").2)
    ∧ (∀ off, parseNatQ resumeMeta = some off → off < f.content.length →
      f.seekFails off = true →
      (getOp fs st lPath resumeMeta).2 = .evMimeType m.mimeType ::
          .evTotalSize f.content.length :: getLoop f 0 0
        ∧ (dataChunks (getLoop f 0 0)).flatten = f.content
        ∧ Event.evCanResume ∉ (getOp fs st lPath resumeMeta).2)
    ∧ (parseNatQ resumeMeta = none →
      (getOp fs st lPath resumeMeta).2 = (getOp fs st lPath "").2)
    ∧ (Event.evCanResume ∈ (getOp fs st lPath resumeMeta).2 ↔
      ∃ off, parseNatQ resumeMeta = some off ∧ off < f.content.length ∧
        f.seekFails off = false) := by
  have h00 : fseekOk f 0 = true := by simp [fseekOk, h0]
  have hbase : (getOp fs st lPath "").2 = .evMimeType m.mimeType ::
      .evTotalSize f.content.length :: getLoop f 0 0 := by
    simp [getOp, hcr, hres, h00]
  have hacc : ∀ off, parseNatQ resumeMeta = some off → off < f.content.length →
      f.seekFails off = false →
      (getOp fs st lPath resumeMeta).2 = .evMimeType m.mimeType ::
        .evTotalSize f.content.length :: .evCanResume :: getLoop f off off := by
    intro off hp hlt hf
    have hsk : fseekOk f off = true := by
      simp only [fseekOk, hf, Bool.not_false, Bool.and_true, decide_eq_true_eq]
      omega
    simp [getOp, hcr, hres, hm, hp, hlt, hsk]
  have hover : ∀ off, parseNatQ resumeMeta = some off → f.content.length ≤ off →
      (getOp fs st lPath resumeMeta).2 = .evMimeType m.mimeType ::
        .evTotalSize f.content.length :: getLoop f 0 0 := by
    intro off hp hge
    have hnlt : ¬off < f.content.length := by omega
    simp [getOp, hcr, hres, hm, hp, hnlt, h00]
  have hfail : ∀ off, parseNatQ resumeMeta = some off → off < f.content.length →
      f.seekFails off = true →
      (getOp fs st lPath resumeMeta).2 = .evMimeType m.mimeType ::
        .evTotalSize f.content.length :: getLoop f 0 0 := by
    intro off hp hlt hf
    have hsk : fseekOk f off = false := by
      simp [fseekOk, hf]
    simp [getOp, hcr, hres, hm, hp, hlt, hsk, h00]
  have hnone : parseNatQ resumeMeta = none →
      (getOp fs st lPath resumeMeta).2 = .evMimeType m.mimeType ::
        .evTotalSize f.content.length :: getLoop f 0 0 := by
    intro hp
    simp [getOp, hcr, hres, hm, hp, h00]
  refine ⟨hacc, ?_, ?_, ?_, ?_⟩
  · intro off hp hge
    rw [hover off hp hge, hbase]
  · intro off hp hlt hf
    refine ⟨hfail off hp hlt hf, ?_, ?_⟩
    · rw [getLoop_flatten]
      exact List.drop_zero _
    · rw [hfail off hp hlt hf]
      intro hmem
      rcases List.mem_cons.1 hmem with h1 | h1
      · exact Event.noConfusion h1
      rcases List.mem_cons.1 h1 with h2 | h2
      · exact Event.noConfusion h2
      · exact getLoop_no_canResume f 0 0 h2
  · intro hp
    rw [hnone hp, hbase]
  · constructor
    · intro hmem
      rcases hp : parseNatQ resumeMeta with _ | off
      · rw [hnone hp] at hmem
        rcases List.mem_cons.1 hmem with h1 | h1
        · exact absurd h1 (by simp)
        rcases List.mem_cons.1 h1 with h2 | h2
        · exact absurd h2 (by simp)
        · exact absurd h2 (getLoop_no_canResume f 0 0)
      · by_cases hlt : off < f.content.length
        · rcases hsf : f.seekFails off with _ | _
          · exact ⟨off, rfl, hlt, hsf⟩
          · rw [hfail off hp hlt hsf] at hmem
            rcases List.mem_cons.1 hmem with h1 | h1
            · exact absurd h1 (by simp)
            rcases List.mem_cons.1 h1 with h2 | h2
            · exact absurd h2 (by simp)
            · exact absurd h2 (getLoop_no_canResume f 0 0)
        · rw [hover off hp (by omega)] at hmem
          rcases List.mem_cons.1 hmem with h1 | h1
          · exact absurd h1 (by simp)
          rcases List.mem_cons.1 h1 with h2 | h2
          · exact absurd h2 (by simp)
          · exact absurd h2 (getLoop_no_canResume f 0 0)
    · rintro ⟨off, hp, hlt, hf⟩
      rw [hacc off hp hlt hf]
      simp

/-- Witness for C3: resuming the two-byte file `/a/f` at offset 1 is
accepted and the stream starts at baseline 1. -/
theorem get_resume_spec_witness :
    (checkCorrectRepository fsC4 none "/a/f/").2 = some (repoA, ["f"])
    ∧ repoA.resolve ["f"] = some (.file metaW fileA)
    ∧ fileA.seekFails 0 = false
    ∧ parseNatQ "1" = some 1
    ∧ 1 < fileA.content.length
    ∧ (getOp fsC4 ⟨none, none, [], []⟩ "/a/f/" "1").2
        = .evMimeType metaW.mimeType :: .evTotalSize fileA.content.length ::
          .evCanResume :: getLoop fileA 1 1 := by
  refine ⟨rfl, rfl, rfl, rfl, by decide, ?_⟩
  exact (get_resume_spec fsC4 ⟨none, none, [], []⟩ "/a/f/" "1" repoA ["f"] metaW fileA
    rfl rfl rfl (by decide)).1 1 rfl (by decide) rfl

/-- For a request resolving to a file (with a working initial rewind), the
get stream is the plain full read, or the resume-accepted read from the
parsed offset. -/
theorem getOp_events_cases (fs : Fs) (st : SlaveState) (lPath rm : String)
    (r : Repository) (comps : List String) (m : Meta) (f : FileNode)
    (hcr : (checkCorrectRepository fs st.repository lPath).2 = some (r, comps))
    (hres : r.resolve comps = some (.file m f))
    (h0 : f.seekFails 0 = false) :
    (getOp fs st lPath rm).2 = .evMimeType m.mimeType ::
        .evTotalSize f.content.length :: getLoop f 0 0
    ∨ ∃ off, parseNatQ rm = some off ∧ off < f.content.length ∧
        f.seekFails off = false ∧
        (getOp fs st lPath rm).2 = .evMimeType m.mimeType ::
          .evTotalSize f.content.length :: .evCanResume :: getLoop f off off := by
  have h00 : fseekOk f 0 = true := by simp [fseekOk, h0]
  by_cases hm : rm = ""
  · left
    subst hm
    simp [getOp, hcr, hres, h00]
  · rcases hp : parseNatQ rm with _ | off
    · left
      simp [getOp, hcr, hres, hm, hp, h00]
    · by_cases hlt : off < f.content.length
      · rcases hsf : f.seekFails off with _ | _
        · have hsk : fseekOk f off = true := by
            simp only [fseekOk, hsf, Bool.not_false, Bool.and_true, decide_eq_true_eq]
            omega
          right
          exact ⟨off, rfl, hlt, hsf, by simp [getOp, hcr, hres, hm, hp, hlt, hsk]⟩
        · have hsk : fseekOk f off = false := by simp [fseekOk, hsf]
          left
          simp [getOp, hcr, hres, hm, hp, hlt, hsk, h00]
      · left
        simp [getOp, hcr, hres, hm, hp, hlt, h00]

/-- C8 fails on the code: the processed-size report emitted after the final
empty completion chunk repeats the previous cumulative value.  Getting the
two-byte file `/a/f` reports the sequence 1, 2, 2, which is not strictly
increasing. -/
theorem get_processedSize_repeat_counterexample :
    processedReports ((getOp fsC4 ⟨none, none, [], []⟩ "/a/f/" "").2) = [1, 2, 2]
    ∧ ¬ List.Chain' (· < ·)
        (processedReports ((getOp fsC4 ⟨none, none, [], []⟩ "/a/f/" "").2)) := by
  have h1 : (getOp fsC4 ⟨none, none, [], []⟩ "/a/f/" "").2
      = .evMimeType metaW.mimeType :: .evTotalSize fileA.content.length ::
        getLoop fileA 0 0 := rfl
  have h2 : getLoop fileA 0 0 = [.evData [10], .evProcessedSize 1, .evData [20],
      .evProcessedSize 2, .evData [], .evProcessedSize 2, .evFinished] := by
    rw [getLoop]
    norm_num [fileA]
    rw [getLoop]
    norm_num [fileA]
    rw [getLoop]
    norm_num [fileA]
  have h : processedReports ((getOp fsC4 ⟨none, none, [], []⟩ "/a/f/" "").2) = [1, 2, 2] := by
    rw [h1, h2]
    rfl
  exact ⟨h, by rw [h]; simp [List.chain'_cons]⟩

/-- C8 amended: a successful full-file get emits the MIME type, then the
total size, then optionally the resume acceptance, then the data chunks
with a cumulative processed-size report after each chunk; those reports are
strictly increasing across the non-empty data chunks and end at the total
size, while the report after the final empty completion chunk repeats that
total (so the full reported sequence is non-decreasing, not strictly
increasing), and the stream ends with `finished`. -/
theorem get_emission_report_spec (fs : Fs) (st : SlaveState) (lPath rm : String)
    (r : Repository) (comps : List String) (m : Meta) (f : FileNode)
    (hcr : (checkCorrectRepository fs st.repository lPath).2 = some (r, comps))
    (hres : r.resolve comps = some (.file m f))
    (h0 : f.seekFails 0 = false) :
    ∃ resumeEv pos1 ps,
      (getOp fs st lPath rm).2 = .evMimeType m.mimeType ::
        .evTotalSize f.content.length :: resumeEv ++ getLoop f pos1 pos1
      ∧ (resumeEv = [] ∨ resumeEv = [.evCanResume])
      ∧ pos1 ≤ f.content.length
      ∧ processedReports ((getOp fs st lPath rm).2) = ps ++ [f.content.length]
      ∧ List.Chain' (· < ·) ps
      ∧ (ps = [] ∨ ps.getLast? = some f.content.length)
      ∧ ((getOp fs st lPath rm).2).getLast? = some Event.evFinished := by
  rcases getOp_events_cases fs st lPath rm r comps m f hcr hres h0 with
    hev | ⟨off, _, hlt, _, hev⟩
  · obtain ⟨ps, hrep, hch, hgt, hemp, hlast⟩ := getLoop_processed f 0 0 (Nat.zero_le _)
    have hfin : 0 + (f.content.length - 0) = f.content.length := by omega
    rw [hfin] at hrep hlast
    refine ⟨[], 0, ps, by simpa using hev, Or.inl rfl, Nat.zero_le _, ?_, hch, ?_, ?_⟩
    · rw [hev]
      simp only [processedReports, List.filterMap_cons]
      exact hrep
    · rcases eq_or_ne ps [] with rfl | hne
      · exact Or.inl rfl
      · exact Or.inr (hlast hne)
    · rw [hev, getLast?_cons_of_tail _ (by simp [getLoop_ne_nil]),
        getLast?_cons_of_tail _ (getLoop_ne_nil f _ _)]
      exact getLoop_last f 0 0
  · obtain ⟨ps, hrep, hch, hgt, hemp, hlast⟩ := getLoop_processed f off off
      (Nat.le_of_lt hlt)
    have hfin : off + (f.content.length - off) = f.content.length := by omega
    rw [hfin] at hrep hlast
    refine ⟨[.evCanResume], off, ps, by simpa using hev, Or.inr rfl,
      Nat.le_of_lt hlt, ?_, hch, ?_, ?_⟩
    · rw [hev]
      simp only [processedReports, List.filterMap_cons]
      exact hrep
    · rcases eq_or_ne ps [] with rfl | hne
      · exact Or.inl rfl
      · exact Or.inr (hlast hne)
    · rw [hev, getLast?_cons_of_tail _ (by simp [getLoop_ne_nil]),
        getLast?_cons_of_tail _ (by simp [getLoop_ne_nil]),
        getLast?_cons_of_tail _ (getLoop_ne_nil f _ _)]
      exact getLoop_last f off off

/-- Witness for C8 (amended) on the plain get of the two-byte file `/a/f`. -/
theorem get_emission_report_spec_witness :
    (checkCorrectRepository fsC4 none "/a/f/").2 = some (repoA, ["f"])
    ∧ repoA.resolve ["f"] = some (.file metaW fileA)
    ∧ fileA.seekFails 0 = false
    ∧ (∃ resumeEv pos1 ps,
      (getOp fsC4 ⟨none, none, [], []⟩ "/a/f/" "").2 = .evMimeType metaW.mimeType ::
        .evTotalSize fileA.content.length :: resumeEv ++ getLoop fileA pos1 pos1
      ∧ (resumeEv = [] ∨ resumeEv = [.evCanResume])
      ∧ pos1 ≤ fileA.content.length
      ∧ processedReports ((getOp fsC4 ⟨none, none, [], []⟩ "/a/f/" "").2)
          = ps ++ [fileA.content.length]
      ∧ List.Chain' (· < ·) ps
      ∧ (ps = [] ∨ ps.getLast? = some fileA.content.length)
      ∧ ((getOp fsC4 ⟨none, none, [], []⟩ "/a/f/" "").2).getLast?
          = some Event.evFinished) :=
  ⟨rfl, rfl, rfl,
    get_emission_report_spec fsC4 ⟨none, none, [], []⟩ "/a/f/" "" repoA ["f"] metaW fileA
      rfl rfl rfl⟩

/-! ### Bounded reads -/

/-- A take followed by the continuing take of the rest joins to the take of
the whole budget (for a first take bounded by the budget). -/
theorem take_step {α : Type} (D : List α) (kk budget : Nat) (h1 : kk ≤ budget) :
    D.take kk ++ (D.drop (D.take kk).length).take (budget - (D.take kk).length)
      = D.take budget := by
  rw [List.length_take]
  rcases Nat.le_total kk D.length with h | h
  · rw [Nat.min_eq_left h, ← List.take_add]
    congr 1
    omega
  · rw [Nat.min_eq_right h, List.drop_length, List.take_nil, List.append_nil,
      List.take_of_length_le h, List.take_of_length_le (le_trans h h1)]

/-- The bounded read loop consumes `min budget remaining` bytes: it returns
`0` when the budget is exhausted first and `ERR_NO_CONTENT` when the store
runs out first, the chunks concatenating to the corresponding slice. -/
theorem readLoop_spec (f : FileNode) (pos budget : Nat) :
    (budget ≤ f.content.length - pos →
      (readLoop f pos budget).2 = 0
      ∧ (readLoop f pos budget).1.flatten = (f.content.drop pos).take budget)
    ∧ (f.content.length - pos < budget →
      (readLoop f pos budget).2 = ERR_NO_CONTENT
      ∧ (readLoop f pos budget).1.flatten = f.content.drop pos) := by
  by_cases hb : budget = 0
  · subst hb
    rw [readLoop]
    exact ⟨fun _ => ⟨by simp, by simp⟩, fun hc => absurd hc (by omega)⟩
  · by_cases hp : f.content.length ≤ pos
    · rw [readLoop]
      refine ⟨fun hc => absurd hc (by omega), fun _ => ?_⟩
      rw [if_neg hb, if_pos hp]
      exact ⟨rfl, by simp [List.drop_eq_nil_of_le hp]⟩
    · have ih := readLoop_spec f
        (pos + ((f.content.drop pos).take (min (max 1 f.chunkSize) budget)).length)
        (budget - ((f.content.drop pos).take (min (max 1 f.chunkSize) budget)).length)
      have hk : 1 ≤ ((f.content.drop pos).take (min (max 1 f.chunkSize) budget)).length
          ∧ ((f.content.drop pos).take (min (max 1 f.chunkSize) budget)).length ≤ budget
          ∧ ((f.content.drop pos).take (min (max 1 f.chunkSize) budget)).length
              ≤ f.content.length - pos := by
        simp only [List.length_take, List.length_drop]
        omega
      rw [readLoop, if_neg hb, if_neg hp]
      simp only []
      constructor
      · intro hle
        obtain ⟨h1, h2⟩ := ih.1 (by omega)
        refine ⟨h1, ?_⟩
        rw [List.flatten_cons, h2, ← List.drop_drop]
        exact take_step (f.content.drop pos) (min (max 1 f.chunkSize) budget) budget
          (Nat.min_le_right _ _)
      · intro hlt
        obtain ⟨h1, h2⟩ := ih.2 (by omega)
        refine ⟨h1, ?_⟩
        rw [List.flatten_cons, h2, ← List.drop_drop]
        exact take_append_drop_len (f.content.drop pos) (min (max 1 f.chunkSize) budget)
termination_by budget
decreasing_by
  simp only [List.length_take, List.length_drop]
  omega

/-- A one-byte file served through a four-byte internal chunk size. -/
def fileC : FileNode := ⟨[5], 4, fun _ => false, 0⟩

/-- A session with `fileC` open at position 0. -/
def stC2 : SlaveState := ⟨none, some ⟨"/c/", "f", fileC, 0⟩, [], []⟩

/-- C2 fails on the code: a bounded read of 2 bytes on the 1-byte open file
stops at the store's EndOfData, but then emits `error(ERR_NO_CONTENT)`
rather than one final empty chunk and `finished` (the `lRetVal == 0` test
of line 225 does not treat `ERR_NO_CONTENT` as success the way `get` at
line 137 does). -/
theorem read_endOfData_error_counterexample :
    (readOp stC2 2).2 = [.evData [5], .evError ERR_NO_CONTENT "f"]
    ∧ Event.evFinished ∉ (readOp stC2 2).2 := by
  have h : (readOp stC2 2).2 = [.evData [5], .evError ERR_NO_CONTENT "f"] := by
    simp [readOp, stC2, readLoop, fileC, ERR_NO_CONTENT]
  exact ⟨h, by rw [h]; decide⟩

/-- C2 amended: the bounded read loop decrements the remaining budget by
each chunk's length and stops when the budget reaches zero or the store
returns EndOfData, whichever comes first; the emitted bytes are the next
`min budget remaining` bytes of the file.  When the budget is exhausted
first it emits one final empty chunk and `finished`; when the store
returns EndOfData first it instead emits `error(ERR_NO_CONTENT)` with no
empty chunk and no `finished`. -/
theorem readOp_budget_spec (st : SlaveState) (h : OpenFileHandle) (pSize : Nat)
    (hof : st.openFile = some h) :
    (pSize ≤ h.file.content.length - h.pos →
      (readOp st pSize).2
        = ((readLoop h.file h.pos pSize).1.map Event.evData) ++ [.evData [], .evFinished]
      ∧ (readLoop h.file h.pos pSize).1.flatten = (h.file.content.drop h.pos).take pSize)
    ∧ (h.file.content.length - h.pos < pSize →
      (readOp st pSize).2
        = ((readLoop h.file h.pos pSize).1.map Event.evData)
            ++ [.evError ERR_NO_CONTENT h.path]
      ∧ (readLoop h.file h.pos pSize).1.flatten = h.file.content.drop h.pos
      ∧ Event.evFinished ∉ (readOp st pSize).2) := by
  constructor
  · intro hle
    obtain ⟨h1, h2⟩ := (readLoop_spec h.file h.pos pSize).1 hle
    exact ⟨by simp [readOp, hof, h1], h2⟩
  · intro hlt
    obtain ⟨h1, h2⟩ := (readLoop_spec h.file h.pos pSize).2 hlt
    have hev : (readOp st pSize).2
        = ((readLoop h.file h.pos pSize).1.map Event.evData)
            ++ [.evError ERR_NO_CONTENT h.path] := by
      simp [readOp, hof, h1, ERR_NO_CONTENT]
    refine ⟨hev, h2, ?_⟩
    rw [hev]
    simp

/-- Witness for C2 (amended): a bounded read of exactly the one remaining
byte exhausts the budget and terminates with the empty chunk and
`finished`. -/
theorem readOp_budget_spec_witness :
    stC2.openFile = some ⟨"/c/", "f", fileC, 0⟩
    ∧ 1 ≤ fileC.content.length - 0
    ∧ ((readOp stC2 1).2
        = ((readLoop fileC 0 1).1.map Event.evData) ++ [.evData [], .evFinished]
      ∧ (readLoop fileC 0 1).1.flatten = (fileC.content.drop 0).take 1) :=
  ⟨rfl, by decide,
    (readOp_budget_spec stC2 ⟨"/c/", "f", fileC, 0⟩ 1 rfl).1 (by decide)⟩

/-! ### Entry encoder detail levels -/

/-- C5: at detail level 0 the encoded record holds exactly the name, the
type and permission mode bits, and the link destination iff the node is a
symlink — never size, MIME type, times, owner, or group; at detail level 1
the extra fields describe the symlink node itself (the link is not
resolved, so the record does not depend on the resolution oracle); above
level 1 the extra fields describe the resolved target when the
parent-relative resolution succeeds, and fall back to the symlink's own
attributes when it fails. -/
theorem createUDSEntry_detail_levels (fs : Fs) (rl : String → Option Node)
    (uc gc : List (Nat × String)) (m : Meta) (t : String) (d : Int) (ht : t ≠ "") :
    (∀ n, symlinkTargetOf n = "" → d ≤ 0 →
      (createUDSEntry fs rl uc gc n d).1
        = [.name (nodeMeta n).name, .fileType ((nodeMeta n).mode &&& 0o170000),
            .access ((nodeMeta n).mode &&& 0o7777)])
    ∧ (d ≤ 0 →
      (createUDSEntry fs rl uc gc (.symlink m t) d).1
        = [.name m.name, .linkDest t, .fileType (m.mode &&& 0o170000),
            .access (m.mode &&& 0o7777)])
    ∧ ((createUDSEntry fs rl uc gc (.symlink m t) 1).1
        = [.name m.name, .linkDest t, .fileType (m.mode &&& 0o170000),
            .access (m.mode &&& 0o7777), .size 0, .mime m.mimeType,
            .atime m.atime, .mtime m.mtime,
            .user (getUserName fs.pwd uc m.uid).1,
            .group (getGroupName fs.grp gc m.gid).1])
    ∧ (∀ n2, 1 < d → rl t = some n2 →
      (createUDSEntry fs rl uc gc (.symlink m t) d).1
        = [.name m.name, .linkDest t, .fileType ((nodeMeta n2).mode &&& 0o170000),
            .access ((nodeMeta n2).mode &&& 0o7777), .size (nodeSize n2),
            .mime (nodeMeta n2).mimeType, .atime (nodeMeta n2).atime,
            .mtime (nodeMeta n2).mtime,
            .user (getUserName fs.pwd uc (nodeMeta n2).uid).1,
            .group (getGroupName fs.grp gc (nodeMeta n2).gid).1])
    ∧ (1 < d → rl t = none →
      (createUDSEntry fs rl uc gc (.symlink m t) d).1
        = [.name m.name, .linkDest t, .fileType (m.mode &&& 0o170000),
            .access (m.mode &&& 0o7777), .size 0, .mime m.mimeType,
            .atime m.atime, .mtime m.mtime,
            .user (getUserName fs.pwd uc m.uid).1,
            .group (getGroupName fs.grp gc m.gid).1]) := by
  refine ⟨?_, ?_, ?_, ?_, ?_⟩
  · intro n hsym hd
    have hd0 : ¬d > 0 := by omega
    simp [createUDSEntry, hsym, hd0]
  · intro hd
    have hd0 : ¬d > 0 := by omega
    have hd1 : ¬d > 1 := by omega
    simp [createUDSEntry, symlinkTargetOf, ht, hd0, hd1, nodeMeta]
  · simp [createUDSEntry, symlinkTargetOf, ht, nodeMeta, nodeSize]
  · intro n2 hd hr
    have hd1 : d > 1 := hd
    have hd0 : d > 0 := by omega
    simp [createUDSEntry, symlinkTargetOf, ht, hd0, hd1, hr, nodeMeta]
  · intro hd hr
    have hd1 : d > 1 := hd
    have hd0 : d > 0 := by omega
    simp [createUDSEntry, symlinkTargetOf, ht, hd0, hd1, hr, nodeMeta, nodeSize]

/-- Witness for C5 at detail level 1 on a concrete symlink: the extra
fields describe the symlink itself (size 0, its own uid/gid resolved
through the caches). -/
theorem createUDSEntry_detail_levels_witness :
    ("x" : String) ≠ ""
    ∧ (createUDSEntry fsC4 (fun _ => some (.file metaW fileA)) [] []
        (.symlink metaW "x") 1).1
      = [.name metaW.name, .linkDest "x", .fileType (metaW.mode &&& 0o170000),
          .access (metaW.mode &&& 0o7777), .size 0, .mime metaW.mimeType,
          .atime metaW.atime, .mtime metaW.mtime,
          .user (getUserName fsC4.pwd [] metaW.uid).1,
          .group (getGroupName fsC4.grp [] metaW.gid).1] :=
  ⟨by decide,
    (createUDSEntry_detail_levels fsC4 (fun _ => some (.file metaW fileA)) [] []
      metaW "x" 1 (by decide)).2.2.1⟩

/-! ### Error taxonomy for wrong-kind nodes -/

/-- For a request resolving to a file, get emits no error signal at all. -/
theorem getOp_file_no_error (fs : Fs) (st : SlaveState) (lPath rm : String)
    (r : Repository) (comps : List String) (m : Meta) (f : FileNode)
    (hcr : (checkCorrectRepository fs st.repository lPath).2 = some (r, comps))
    (hres : r.resolve comps = some (.file m f)) (c : Nat) (s : String) :
    Event.evError c s ∉ (getOp fs st lPath rm).2 := by
  have hbase : ∀ pos base, Event.evError c s
      ∉ Event.evMimeType m.mimeType :: Event.evTotalSize f.content.length ::
        getLoop f pos base := by
    intro pos base hmem
    rcases List.mem_cons.1 hmem with h1 | h1
    · exact Event.noConfusion h1
    rcases List.mem_cons.1 h1 with h2 | h2
    · exact Event.noConfusion h2
    · exact getLoop_no_error f pos base c s h2
  by_cases hm : rm = ""
  · subst hm
    simpa [getOp, hcr, hres] using hbase _ 0
  · rcases hp : parseNatQ rm with _ | off
    · simpa [getOp, hcr, hres, hm, hp] using hbase _ 0
    · by_cases hlt : off < f.content.length
      · rcases hsk : fseekOk f off with _ | _
        · simpa [getOp, hcr, hres, hm, hp, hlt, hsk] using hbase _ 0
        · intro hmem
          simp [getOp, hcr, hres, hm, hp, hlt, hsk] at hmem
          exact getLoop_no_error f off off c s hmem
      · simpa [getOp, hcr, hres, hm, hp, hlt] using hbase _ 0

/-- C6: a path resolving to an existing node of the wrong kind fails with a
type mismatch rather than not-found: get and open on a directory fail with
IsDirectory, a directory listing of a non-directory fails with IsFile, and
the not-found error is emitted exactly for paths that resolve to no node. -/
theorem wrongKind_error_taxonomy (fs : Fs) (st : SlaveState)
    (lPath rm displayUrl : String) (rl : String → Option Node) (dm : Option String)
    (r : Repository) (comps : List String)
    (hcr : (checkCorrectRepository fs st.repository lPath).2 = some (r, comps)) :
    (∀ m ch, r.resolve comps = some (.dir m ch) →
      (getOp fs st lPath rm).2 = [.evError ERR_IS_DIRECTORY (joinSlash comps)]
      ∧ (openOp fs st lPath displayUrl false).2
          = [.evError ERR_IS_DIRECTORY (joinSlash comps)])
    ∧ (∀ n, r.resolve comps = some n → isDir n = false →
      (listDirOp fs st lPath rl dm).2 = [.evError ERR_IS_FILE (joinSlash comps)])
    ∧ (r.resolve comps = none →
      (getOp fs st lPath rm).2 = [.evError ERR_DOES_NOT_EXIST (joinSlash comps)]
      ∧ (listDirOp fs st lPath rl dm).2 = [.evError ERR_DOES_NOT_EXIST (joinSlash comps)]
      ∧ (openOp fs st lPath displayUrl false).2
          = [.evError ERR_DOES_NOT_EXIST (joinSlash comps)])
    ∧ (∀ n, r.resolve comps = some n →
      (∀ s, Event.evError ERR_DOES_NOT_EXIST s ∉ (getOp fs st lPath rm).2)
      ∧ (∀ s, Event.evError ERR_DOES_NOT_EXIST s ∉ (listDirOp fs st lPath rl dm).2)
      ∧ (∀ s, Event.evError ERR_DOES_NOT_EXIST s
          ∉ (openOp fs st lPath displayUrl false).2)) := by
  refine ⟨?_, ?_, ?_, ?_⟩
  · intro m ch hres
    exact ⟨by simp [getOp, hcr, hres], by simp [openOp, hcr, hres]⟩
  · intro n hres hnd
    cases n with
    | dir m ch => exact absurd hnd (by simp [isDir])
    | file m f => simp [listDirOp, hcr, hres]
    | symlink m t => simp [listDirOp, hcr, hres]
  · intro hres
    exact ⟨by simp [getOp, hcr, hres], by simp [listDirOp, hcr, hres],
      by simp [openOp, hcr, hres]⟩
  · intro n hres
    refine ⟨?_, ?_, ?_⟩
    · intro s
      cases n with
      | dir m ch =>
        simp [getOp, hcr, hres, ERR_DOES_NOT_EXIST, ERR_IS_DIRECTORY]
      | file m f =>
        exact getOp_file_no_error fs st lPath rm r comps m f hcr hres _ s
      | symlink m t =>
        simp [getOp, hcr, hres, ERR_DOES_NOT_EXIST, ERR_IS_DIRECTORY]
    · intro s
      cases n with
      | dir m ch =>
        simp [listDirOp, hcr, hres]
      | file m f =>
        simp [listDirOp, hcr, hres, ERR_DOES_NOT_EXIST, ERR_IS_FILE]
      | symlink m t =>
        simp [listDirOp, hcr, hres, ERR_DOES_NOT_EXIST, ERR_IS_FILE]
    · intro s
      cases n with
      | dir m ch =>
        simp [openOp, hcr, hres, ERR_DOES_NOT_EXIST, ERR_IS_DIRECTORY]
      | file m f =>
        rcases hsk : fseekOk f 0 with _ | _
        · simp [openOp, hcr, hres, hsk, ERR_DOES_NOT_EXIST,
            ERR_CANNOT_OPEN_FOR_READING]
        · simp [openOp, hcr, hres, hsk]
      | symlink m t =>
        simp [openOp, hcr, hres, ERR_DOES_NOT_EXIST, ERR_IS_DIRECTORY]

/-- A directory node for the error-taxonomy witness. -/
def dirNodeW : Node := .dir metaW []

/-- A world with one archive `/d/` whose root resolves `sub` to a directory
and `f` to a file. -/
def fsC6 : Fs :=
  ⟨fun s => decide (s = "/d/objects" ∨ s = "/d/refs"),
   fun _ => true,
   fun root comps =>
     if root = "/d/" ∧ comps = ["sub"] then some dirNodeW
     else if root = "/d/" ∧ comps = ["f"] then some (.file metaW fileA)
     else none,
   fun _ => none, fun _ => none⟩

/-- Witness for C6: get and open on the directory `/d/sub` fail with
IsDirectory, and listing the file `/d/f` fails with IsFile. -/
theorem wrongKind_error_taxonomy_witness :
    (checkCorrectRepository fsC6 none "/d/sub/").2
        = some (⟨"/d/", true, fsC6.repoResolve "/d/"⟩, ["sub"])
    ∧ Repository.resolve ⟨"/d/", true, fsC6.repoResolve "/d/"⟩ ["sub"]
        = some (.dir metaW [])
    ∧ ((getOp fsC6 ⟨none, none, [], []⟩ "/d/sub/" "").2
        = [.evError ERR_IS_DIRECTORY (joinSlash ["sub"])]
      ∧ (openOp fsC6 ⟨none, none, [], []⟩ "/d/sub/" "/d/sub" false).2
        = [.evError ERR_IS_DIRECTORY (joinSlash ["sub"])])
    ∧ (listDirOp fsC6 ⟨none, none, [], []⟩ "/d/f/" (fun _ => none) none).2
        = [.evError ERR_IS_FILE (joinSlash ["f"])] := by
  refine ⟨rfl, rfl, ?_, ?_⟩
  · exact (wrongKind_error_taxonomy fsC6 ⟨none, none, [], []⟩ "/d/sub/" "" "/d/sub"
      (fun _ => none) none ⟨"/d/", true, fsC6.repoResolve "/d/"⟩ ["sub"] rfl).1 metaW [] rfl
  · exact (wrongKind_error_taxonomy fsC6 ⟨none, none, [], []⟩ "/d/f/" "" ""
      (fun _ => none) none ⟨"/d/", true, fsC6.repoResolve "/d/"⟩ ["f"] rfl).2.1
      (.file metaW fileA) rfl rfl

end Kup
